import Mathlib

/-!
Verification of the CS_Tunnel repository's core components against its
specification.  The Go sources are shallowly embedded: byte sequences are
`List Nat` (each entry a byte value), Go strings are `List Char`, fallible
operations return `Option` or `Except`, and I/O-dependent control flow is
modelled by passing the outcome of each I/O step as an explicit argument.
-/

namespace crypto

/-- Byte sequences, the model of Go `[]byte`. -/
abbrev Bytes := List Nat

/-- Pointwise XOR of two byte sequences, truncated to the shorter one.
Models Go's `XORKeyStream` acting on a source slice with a keystream. -/
def zipXor (a b : Bytes) : Bytes := List.zipWith Nat.xor a b

/-- Model of `AESCipher` from `pkg/crypto/crypto.go`.  The field `block`
is the forward AES-256 block transform held in the Go struct's
`block cipher.Block` field (keyed by the SHA-256 of the password); it is
kept abstract, recording only the invariant that a block cipher maps
16-byte states to 16-byte states. -/
structure AESCipher where
  block : Bytes → Bytes
  block_len : ∀ b, (block b).length = 16

/-- Split a byte sequence into successive chunks of at most 16 bytes
(`aes.BlockSize`), mirroring how Go's CFB stream consumes its input one
keystream segment at a time. -/
def chunks16 : Bytes → List Bytes
  | [] => []
  | a :: as => ((a :: as).take 16) :: chunks16 ((a :: as).drop 16)
termination_by l => l.length
decreasing_by simp only [List.length_drop, List.length_cons]; omega

/-- CFB encryption keystream loop (Go `cipher.NewCFBEncrypter` applied via
`XORKeyStream`): each plaintext chunk is XORed with the block transform of
the feedback register, and the resulting ciphertext chunk becomes the next
register value.  The initial register is the IV. -/
def cfbEncryptChunks (E : Bytes → Bytes) : Bytes → List Bytes → List Bytes
  | _, [] => []
  | reg, p :: ps => zipXor p (E reg) :: cfbEncryptChunks E (zipXor p (E reg)) ps

/-- CFB decryption keystream loop (Go `cipher.NewCFBDecrypter`): each
ciphertext chunk is XORed with the block transform of the register, and the
ciphertext chunk itself becomes the next register value. -/
def cfbDecryptChunks (E : Bytes → Bytes) : Bytes → List Bytes → List Bytes
  | _, [] => []
  | reg, c :: cs => zipXor c (E reg) :: cfbDecryptChunks E c cs

/-- `AESCipher.Encrypt` from `pkg/crypto/crypto.go` lines 37-51: the output
is `IV || ciphertext`.  The randomly generated IV is passed as an explicit
argument (randomness is not modelled); every IV `Encrypt` generates has
length 16. -/
def Encrypt (c : AESCipher) (iv plaintext : Bytes) : Bytes :=
  iv ++ (cfbEncryptChunks c.block iv (chunks16 plaintext)).flatten

/-- `AESCipher.Decrypt` from `pkg/crypto/crypto.go` lines 54-67: fails
(`ciphertext too short`) iff the block is shorter than 16 bytes, otherwise
splits off the IV and applies the inverse CFB transform. -/
def Decrypt (c : AESCipher) (ciphertext : Bytes) : Option Bytes :=
  if ciphertext.length < 16 then none
  else some ((cfbDecryptChunks c.block (ciphertext.take 16) (chunks16 (ciphertext.drop 16))).flatten)

theorem length_zipXor (a b : Bytes) : (zipXor a b).length = min a.length b.length := by
  simp [zipXor]

theorem zipXor_cancel (p k : Bytes) (h : p.length ≤ k.length) :
    zipXor (zipXor p k) k = p := by
  induction p generalizing k with
  | nil => simp [zipXor]
  | cons x xs ih =>
    cases k with
    | nil => simp at h
    | cons y ys =>
      simp only [zipXor, List.zipWith] at *
      refine congrArg₂ _ (Nat.xor_cancel_right y x) (ih ys ?_)
      simpa using h

theorem chunks16_eq_of_ne_nil (l : Bytes) (h : l ≠ []) :
    chunks16 l = l.take 16 :: chunks16 (l.drop 16) := by
  cases l with
  | nil => exact absurd rfl h
  | cons a as => rw [chunks16]

theorem chunks16_ne_nil (l : Bytes) (h : l ≠ []) : chunks16 l ≠ [] := by
  rw [chunks16_eq_of_ne_nil l h]
  exact List.cons_ne_nil _ _

theorem join_chunks16 (l : Bytes) : (chunks16 l).flatten = l := by
  induction l using chunks16.induct with
  | case1 => rw [chunks16]; rfl
  | case2 a as ih =>
    rw [chunks16, List.flatten_cons, ih]
    exact List.take_append_drop 16 (a :: as)

/-- Valid chunkings: the exact shape `chunks16` produces — every chunk is
at most 16 bytes, every chunk before the last is exactly 16 bytes, and no
chunk is empty. -/
inductive GoodChunks : List Bytes → Prop
  | nil : GoodChunks []
  | single {c : Bytes} : c ≠ [] → c.length ≤ 16 → GoodChunks [c]
  | cons {c : Bytes} {rest : List Bytes} :
      c.length = 16 → rest ≠ [] → GoodChunks rest → GoodChunks (c :: rest)

theorem goodChunks_chunks16 (l : Bytes) : GoodChunks (chunks16 l) := by
  induction l using chunks16.induct with
  | case1 => rw [chunks16]; exact GoodChunks.nil
  | case2 a as ih =>
    rw [chunks16]
    by_cases hd : (a :: as).drop 16 = []
    · rw [hd, chunks16]
      exact GoodChunks.single (by simp) (by simpa using List.length_take_le 16 (a :: as))
    · have hlen : 16 < (a :: as).length := by
        by_contra hc
        exact hd (List.drop_eq_nil_of_le (by omega))
      refine GoodChunks.cons ?_ (chunks16_ne_nil _ hd) ih
      simp only [List.length_take, List.length_cons] at *
      omega

theorem goodChunks_mem_le (cs : List Bytes) (h : GoodChunks cs) :
    ∀ c ∈ cs, c.length ≤ 16 := by
  induction h with
  | nil => intro c hc; simp at hc
  | single h1 h2 => intro c hc; simp at hc; simpa [hc]
  | cons h1 h2 _ ih =>
    intro c hc
    rcases List.mem_cons.mp hc with rfl | hc
    · omega
    · exact ih c hc

theorem chunks16_nil : chunks16 [] = [] := by rw [chunks16]

theorem length_cfbEncryptChunks (E : Bytes → Bytes) (reg : Bytes) (cs : List Bytes) :
    (cfbEncryptChunks E reg cs).length = cs.length := by
  induction cs generalizing reg with
  | nil => rfl
  | cons p ps ih => simp [cfbEncryptChunks, ih]

theorem goodChunks_cfbEncryptChunks (E : Bytes → Bytes) (hE : ∀ b, (E b).length = 16)
    (reg : Bytes) (cs : List Bytes) (h : GoodChunks cs) :
    GoodChunks (cfbEncryptChunks E reg cs) := by
  induction h generalizing reg with
  | nil => exact GoodChunks.nil
  | single h1 h2 =>
    rename_i c
    simp only [cfbEncryptChunks]
    refine GoodChunks.single ?_ ?_
    · have hpos : 0 < (zipXor c (E reg)).length := by
        rw [length_zipXor, hE]
        have := List.length_pos.mpr h1
        omega
      exact List.ne_nil_of_length_pos hpos
    · rw [length_zipXor, hE]; omega
  | cons h1 h2 hgr ih =>
    rename_i c rest
    simp only [cfbEncryptChunks]
    refine GoodChunks.cons ?_ ?_ (ih _)
    · rw [length_zipXor, hE, h1]; simp
    · have hpos : 0 < (cfbEncryptChunks E (zipXor c (E reg)) rest).length := by
        rw [length_cfbEncryptChunks]
        exact List.length_pos.mpr h2
      exact List.ne_nil_of_length_pos hpos

theorem cfbDecrypt_cfbEncrypt (E : Bytes → Bytes) (hE : ∀ b, (E b).length = 16)
    (reg : Bytes) (cs : List Bytes) (h : ∀ c ∈ cs, c.length ≤ 16) :
    cfbDecryptChunks E reg (cfbEncryptChunks E reg cs) = cs := by
  induction cs generalizing reg with
  | nil => rfl
  | cons p ps ih =>
    simp only [cfbEncryptChunks, cfbDecryptChunks]
    have hp : p.length ≤ (E reg).length := by
      rw [hE]; exact h p (List.mem_cons_self p ps)
    rw [zipXor_cancel p (E reg) hp]
    exact congrArg _ (ih _ (fun c hc => h c (List.mem_cons_of_mem p hc)))

theorem flatten_length_cfbEncryptChunks (E : Bytes → Bytes) (hE : ∀ b, (E b).length = 16)
    (reg : Bytes) (cs : List Bytes) (h : ∀ c ∈ cs, c.length ≤ 16) :
    (cfbEncryptChunks E reg cs).flatten.length = cs.flatten.length := by
  induction cs generalizing reg with
  | nil => rfl
  | cons p ps ih =>
    simp only [cfbEncryptChunks, List.flatten_cons, List.length_append, length_zipXor, hE]
    have hp : p.length ≤ 16 := h p (List.mem_cons_self p ps)
    rw [ih _ (fun c hc => h c (List.mem_cons_of_mem p hc))]
    omega

theorem flatten_length_cfbDecryptChunks (E : Bytes → Bytes) (hE : ∀ b, (E b).length = 16)
    (reg : Bytes) (cs : List Bytes) (h : ∀ c ∈ cs, c.length ≤ 16) :
    (cfbDecryptChunks E reg cs).flatten.length = cs.flatten.length := by
  induction cs generalizing reg with
  | nil => rfl
  | cons p ps ih =>
    simp only [cfbDecryptChunks, List.flatten_cons, List.length_append, length_zipXor, hE]
    have hp : p.length ≤ 16 := h p (List.mem_cons_self p ps)
    rw [ih _ (fun c hc => h c (List.mem_cons_of_mem p hc))]
    omega

theorem goodChunks_flatten_ne_nil (cs : List Bytes) (h : GoodChunks cs) (hne : cs ≠ []) :
    cs.flatten ≠ [] := by
  induction h with
  | nil => exact absurd rfl hne
  | single h1 h2 => simpa using h1
  | cons h1 h2 hr ih =>
    simp only [List.flatten_cons]
    intro hc
    rcases List.append_eq_nil.mp hc with ⟨hc1, _⟩
    exact absurd (congrArg List.length hc1) (by rw [h1]; simp)

theorem chunks16_flatten_good (cs : List Bytes) (h : GoodChunks cs) :
    chunks16 cs.flatten = cs := by
  induction h with
  | nil => exact chunks16_nil
  | single h1 h2 =>
    rename_i c
    simp only [List.flatten_cons, List.flatten_nil, List.append_nil]
    rw [chunks16_eq_of_ne_nil c h1, List.take_of_length_le h2,
      List.drop_eq_nil_of_le h2, chunks16_nil]
  | cons h1 h2 hr ih =>
    rename_i c rest
    simp only [List.flatten_cons]
    have hcne : c ≠ [] := by
      intro hc; rw [hc] at h1; simp at h1
    rw [chunks16_eq_of_ne_nil _ (by simp [hcne]), List.take_left' h1, List.drop_left' h1, ih]

/-- Shared core lemma: CFB decryption inverts CFB encryption for every
16-byte-preserving block transform and every 16-byte IV. -/
theorem decrypt_encrypt (c : AESCipher) (iv m : Bytes) (hiv : iv.length = 16) :
    Decrypt c (Encrypt c iv m) = some m := by
  have hmem := goodChunks_mem_le _ (goodChunks_chunks16 m)
  have hgood := goodChunks_cfbEncryptChunks c.block c.block_len iv _ (goodChunks_chunks16 m)
  unfold Encrypt Decrypt
  rw [if_neg (by simp [hiv])]
  rw [List.take_left' hiv, List.drop_left' hiv]
  rw [chunks16_flatten_good _ hgood]
  rw [cfbDecrypt_cfbEncrypt c.block c.block_len iv _ hmem]
  rw [join_chunks16]

/-- Shared core lemma: an encrypted block is exactly 16 bytes longer than
the plaintext. -/
theorem length_Encrypt (c : AESCipher) (iv m : Bytes) :
    (Encrypt c iv m).length = iv.length + m.length := by
  unfold Encrypt
  rw [List.length_append,
    flatten_length_cfbEncryptChunks c.block c.block_len iv _
      (goodChunks_mem_le _ (goodChunks_chunks16 m)),
    join_chunks16]

/-- Concrete block transform used to instantiate the abstract AES-256
block cipher in closed test statements. -/
def testCipher : AESCipher :=
  ⟨fun _ => List.replicate 16 0, fun _ => by simp⟩

/-- C1: For every cipher context and every byte sequence `m`,
`Decrypt(ctx, Encrypt(ctx, m))` returns exactly `m`, for any 16-byte IV
that `Encrypt` generates. -/
theorem encrypt_then_decrypt_roundtrip (c : AESCipher) (iv m : Bytes)
    (hiv : iv.length = 16) : Decrypt c (Encrypt c iv m) = some m :=
  decrypt_encrypt c iv m hiv

/-- Witness for C1 at a concrete cipher, IV and message. -/
theorem encrypt_then_decrypt_roundtrip_witness :
    (List.replicate 16 0 : Bytes).length = 16 ∧
      Decrypt testCipher (Encrypt testCipher (List.replicate 16 0) [1, 2, 3]) = some [1, 2, 3] :=
  ⟨by simp, encrypt_then_decrypt_roundtrip testCipher (List.replicate 16 0) [1, 2, 3] (by simp)⟩

/-- C6: `Decrypt` fails exactly on blocks shorter than 16 bytes; on every
block of length at least 16 it succeeds — regardless of the block's
contents — and returns a plaintext 16 bytes shorter than the block. -/
theorem decrypt_error_iff (c : AESCipher) (b : Bytes) :
    (Decrypt c b = none ↔ b.length < 16) ∧
      (16 ≤ b.length → ∃ p, Decrypt c b = some p ∧ p.length = b.length - 16) := by
  constructor
  · constructor
    · intro h
      by_contra hlt
      rw [Decrypt, if_neg hlt] at h
      exact Option.some_ne_none _ h
    · intro h
      rw [Decrypt, if_pos h]
  · intro h
    refine ⟨_, by rw [Decrypt, if_neg (by omega)], ?_⟩
    rw [flatten_length_cfbDecryptChunks c.block c.block_len _ _
      (goodChunks_mem_le _ (goodChunks_chunks16 _)), join_chunks16]
    simp

/-- Witness for C6 at a concrete 20-byte block of junk contents. -/
theorem decrypt_error_iff_witness :
    16 ≤ (List.replicate 20 7 : Bytes).length ∧
      ∃ p, Decrypt testCipher (List.replicate 20 7) = some p ∧
        p.length = (List.replicate 20 7 : Bytes).length - 16 :=
  ⟨by simp, (decrypt_error_iff testCipher (List.replicate 20 7)).2 (by simp)⟩

/-- Error taxonomy of `CryptoConn.ReadEncrypted` (`pkg/crypto/crypto.go`
lines 84-105): short reads surface as end-of-stream, a header outside
`(0, 10 MiB]` as `invalid data length`, and a body shorter than one IV as
`ciphertext too short`. -/
inductive FrameError where
  | eof
  | invalidLength
  | malformedBlock
deriving DecidableEq

/-- Model of `io.ReadFull(conn, buf)` with `len(buf) = n` on a stream whose
unread bytes are `s`: consumes exactly `n` bytes or fails. -/
def readFull (n : Nat) (s : Bytes) : Except FrameError (Bytes × Bytes) :=
  if s.length < n then .error .eof else .ok (s.take n, s.drop n)

/-- The length header decoded by `ReadEncrypted`:
`int(lenBuf[0])<<24 | int(lenBuf[1])<<16 | int(lenBuf[2])<<8 | int(lenBuf[3])`. -/
def headerValue (b0 b1 b2 b3 : Nat) : Nat :=
  b0 <<< 24 ||| b1 <<< 16 ||| b2 <<< 8 ||| b3

/-- `CryptoConn.ReadEncrypted` from `pkg/crypto/crypto.go` lines 84-105,
as a function of the unread byte stream: reads the 4-byte header, rejects
lengths outside `(0, 1024*1024*10]` before touching the body, reads the
body, and decrypts it.  Returns the plaintext and the remaining stream. -/
def ReadEncrypted (c : AESCipher) (s : Bytes) : Except FrameError (Bytes × Bytes) :=
  match readFull 4 s with
  | .error e => .error e
  | .ok (lenBuf, s1) =>
    let length := headerValue (lenBuf.getD 0 0) (lenBuf.getD 1 0) (lenBuf.getD 2 0) (lenBuf.getD 3 0)
    if length ≤ 0 ∨ 1024 * 1024 * 10 < length then .error .invalidLength
    else
      match readFull length s1 with
      | .error e => .error e
      | .ok (encrypted, s2) =>
        match Decrypt c encrypted with
        | none => .error .malformedBlock
        | some p => .ok (p, s2)

/-- `CryptoConn.WriteEncrypted` from `pkg/crypto/crypto.go` lines 108-131,
as the byte sequence it writes to the stream: the 4 header bytes
`byte(length>>24) .. byte(length)` followed by the encrypted block. -/
def WriteEncrypted (c : AESCipher) (iv data : Bytes) : Bytes :=
  let encrypted := Encrypt c iv data
  let length := encrypted.length
  [(length >>> 24) % 256, (length >>> 16) % 256, (length >>> 8) % 256, length % 256] ++ encrypted

/-- The specification's wire-format description of the header: the 4-byte
big-endian encoding of `n`. -/
def natToBE4 (n : Nat) : Bytes :=
  [n / 2 ^ 24 % 256, n / 2 ^ 16 % 256, n / 2 ^ 8 % 256, n % 256]

theorem readFull_append (k : Nat) (a b : Bytes) (h : a.length = k) :
    readFull k (a ++ b) = .ok (a, b) := by
  unfold readFull
  rw [if_neg (by simp [h]), List.take_left' h, List.drop_left' h]

theorem lor_mul_pow_two_add (a b k : Nat) (hb : b < 2 ^ k) :
    ((2 ^ k * a) ||| b) = 2 ^ k * a + b :=
  (Nat.mul_add_lt_is_or hb a).symm

/-- Decoding the header bytes written by `WriteEncrypted` recovers the
length, for every length below `2^32`. -/
theorem headerValue_encode (n : Nat) (h : n < 2 ^ 32) :
    headerValue ((n >>> 24) % 256) ((n >>> 16) % 256) ((n >>> 8) % 256) (n % 256) = n := by
  have m0 : (n >>> 24) % 256 < 256 := Nat.mod_lt _ (by norm_num)
  have m1 : (n >>> 16) % 256 < 256 := Nat.mod_lt _ (by norm_num)
  have m2 : (n >>> 8) % 256 < 256 := Nat.mod_lt _ (by norm_num)
  have m3 : n % 256 < 256 := Nat.mod_lt _ (by norm_num)
  unfold headerValue
  rw [Nat.shiftLeft_eq, Nat.shiftLeft_eq, Nat.shiftLeft_eq]
  rw [show ((n >>> 24) % 256) * 2 ^ 24 = 2 ^ 24 * ((n >>> 24) % 256) by ring]
  rw [show ((n >>> 16) % 256) * 2 ^ 16 = 2 ^ 16 * ((n >>> 16) % 256) by ring]
  rw [show ((n >>> 8) % 256) * 2 ^ 8 = 2 ^ 8 * ((n >>> 8) % 256) by ring]
  rw [lor_mul_pow_two_add ((n >>> 24) % 256) (2 ^ 16 * ((n >>> 16) % 256)) 24
    (by norm_num at m1 ⊢; omega)]
  rw [show 2 ^ 24 * ((n >>> 24) % 256) + 2 ^ 16 * ((n >>> 16) % 256) =
    2 ^ 16 * (2 ^ 8 * ((n >>> 24) % 256) + (n >>> 16) % 256) by ring]
  rw [lor_mul_pow_two_add _ (2 ^ 8 * ((n >>> 8) % 256)) 16 (by norm_num at m2 ⊢; omega)]
  rw [show 2 ^ 16 * (2 ^ 8 * ((n >>> 24) % 256) + (n >>> 16) % 256) +
      2 ^ 8 * ((n >>> 8) % 256) =
    2 ^ 8 * (2 ^ 8 * (2 ^ 8 * ((n >>> 24) % 256) + (n >>> 16) % 256) + (n >>> 8) % 256)
    by ring]
  rw [lor_mul_pow_two_add _ (n % 256) 8 (by norm_num at m3 ⊢; omega)]
  rw [Nat.shiftRight_eq_div_pow, Nat.shiftRight_eq_div_pow, Nat.shiftRight_eq_div_pow]
  norm_num at h ⊢
  omega

/-- C2: for every message whose encrypted block fits the 10 MiB ceiling,
the bytes `WriteEncrypted` puts on the wire are the 4-byte big-endian
encoding of `16 + len(m)` followed by the encrypted block, and
`ReadEncrypted` on the other end of the stream returns exactly `m`. -/
theorem writeEncrypted_then_readEncrypted (c : AESCipher) (iv data rest : Bytes)
    (hiv : iv.length = 16) (hlen : 16 + data.length ≤ 10485760) :
    WriteEncrypted c iv data = natToBE4 (16 + data.length) ++ Encrypt c iv data ∧
      ReadEncrypted c (WriteEncrypted c iv data ++ rest) = .ok (data, rest) := by
  have hEnc : (Encrypt c iv data).length = 16 + data.length := by
    rw [length_Encrypt, hiv]
  constructor
  · simp only [WriteEncrypted, natToBE4]
    rw [hEnc, Nat.shiftRight_eq_div_pow, Nat.shiftRight_eq_div_pow,
      Nat.shiftRight_eq_div_pow]
  · simp only [WriteEncrypted]
    rw [hEnc, List.append_assoc]
    unfold ReadEncrypted
    rw [readFull_append 4 _ _ (by rfl)]
    simp only [List.getD_cons_zero, List.getD_cons_succ]
    rw [headerValue_encode (16 + data.length) (by omega)]
    rw [if_neg (by omega)]
    rw [readFull_append (16 + data.length) (Encrypt c iv data) rest hEnc]
    simp only [decrypt_encrypt c iv data hiv]

/-- Witness for C2 at a concrete cipher, IV and 1-byte message over a
stream with nothing after the frame. -/
theorem writeEncrypted_then_readEncrypted_witness :
    (List.replicate 16 0 : Bytes).length = 16 ∧ 16 + ([7] : Bytes).length ≤ 10485760 ∧
      ReadEncrypted testCipher (WriteEncrypted testCipher (List.replicate 16 0) [7] ++ []) =
        .ok ([7], ([] : Bytes)) :=
  ⟨by simp, by simp,
    (writeEncrypted_then_readEncrypted testCipher (List.replicate 16 0) [7] []
      (by simp) (by simp)).2⟩

/-- C3: whenever the 4-byte big-endian header decodes to `0` or to a value
above `10,485,760`, `ReadEncrypted` fails with the invalid-length error for
every possible continuation of the stream — in particular for the empty
continuation, so no body byte is ever needed or consumed. -/
theorem readEncrypted_invalid_length (c : AESCipher) (b0 b1 b2 b3 : Nat)
    (h : headerValue b0 b1 b2 b3 = 0 ∨ 10485760 < headerValue b0 b1 b2 b3) :
    ∀ rest : Bytes, ReadEncrypted c (b0 :: b1 :: b2 :: b3 :: rest) = .error .invalidLength := by
  intro rest
  unfold ReadEncrypted
  rw [show (b0 :: b1 :: b2 :: b3 :: rest : Bytes) = [b0, b1, b2, b3] ++ rest from rfl]
  rw [readFull_append 4 [b0, b1, b2, b3] rest (by rfl)]
  simp only [List.getD_cons_zero, List.getD_cons_succ]
  rw [if_pos (by omega)]

/-- Witness for C3: an all-zero header (declared length 0) with an empty
remainder of the stream is rejected with the invalid-length error. -/
theorem readEncrypted_invalid_length_witness :
    ReadEncrypted testCipher [0, 0, 0, 0] = .error .invalidLength :=
  readEncrypted_invalid_length testCipher 0 0 0 0 (Or.inl (by decide)) []

end crypto

namespace acl

/-- Go strings, modelled as their character sequences. -/
abbrev GoStr := List Char

/-- IP addresses (`net.IP`) in the IPv4 fragment the repository's ACL
examples exercise: 4 byte values.  The Go `net` library's IPv6 and
IPv4-in-IPv6 forms are outside the modelled fragment. -/
abbrev IP := List Nat

/-- `net.IPNet`: a network number and a mask of the same length. -/
structure IPNet where
  ip : List Nat
  mask : List Nat
deriving DecidableEq

/-- `strings.Split` for a single-character separator: `splitOnChar sep s`
always returns at least one (possibly empty) field. -/
def splitOnChar (sep : Char) : GoStr → List GoStr
  | [] => [[]]
  | c :: cs =>
    match splitOnChar sep cs with
    | [] => [[]]
    | h :: t => if c = sep then [] :: h :: t else (c :: h) :: t

/-- One dotted-decimal IPv4 field as Go's `parseIPv4` accepts it: decimal
digits, no leading zero, value at most 255. -/
def parseOctet (s : GoStr) : Option Nat :=
  if s = [] then none
  else if s.all Char.isDigit then
    if 1 < s.length ∧ s.headD ' ' = '0' then none
    else
      let v := s.foldl (fun acc c => acc * 10 + (c.toNat - '0'.toNat)) 0
      if v ≤ 255 then some v else none
  else none

/-- `net.ParseIP`, restricted to the dotted-quad IPv4 fragment: exactly
four octet fields separated by dots. -/
def ParseIP (s : GoStr) : Option IP :=
  match splitOnChar '.' s with
  | [f0, f1, f2, f3] =>
    match parseOctet f0, parseOctet f1, parseOctet f2, parseOctet f3 with
    | some a, some b, some c, some d => some [a, b, c, d]
    | _, _, _, _ => none
  | _ => none

/-- `net.SplitHostPort` for bracketless addresses: succeeds exactly when
the string has one colon (no colon is a missing-port error, more than one
is a too-many-colons error). -/
def SplitHostPort (s : GoStr) : Option (GoStr × GoStr) :=
  match splitOnChar ':' s with
  | [host, port] => some (host, port)
  | _ => none

/-- `extractIP` from `pkg/acl/acl.go` lines 269-280: try the whole string
as an IP, then fall back to the host part of `host:port`. -/
def extractIP (addr : GoStr) : Option IP :=
  match ParseIP addr with
  | some ip => some ip
  | none =>
    match SplitHostPort addr with
    | none => none
    | some (host, _) => ParseIP host

/-- `net.CIDRMask(n, 32)`: a 4-byte mask with `n` leading one bits. -/
def cidrMask (n : Nat) : List Nat :=
  (List.range 4).map (fun i => 256 - 2 ^ (8 - min 8 (n - 8 * i)))

/-- `net.IP.Mask`: byte-wise AND of address and mask. -/
def maskIP (ip mask : List Nat) : List Nat := List.zipWith Nat.land ip mask

/-- The numeric prefix length of a CIDR string, at most 32 for IPv4. -/
def parsePrefixLen (s : GoStr) : Option Nat :=
  if s = [] then none
  else if s.all Char.isDigit then
    let v := s.foldl (fun acc c => acc * 10 + (c.toNat - '0'.toNat)) 0
    if v ≤ 32 then some v else none
  else none

/-- `net.ParseCIDR`, IPv4 fragment: returns the masked network number and
the mask, as the Go function does. -/
def ParseCIDR (s : GoStr) : Option IPNet :=
  match splitOnChar '/' s with
  | [addr, nStr] =>
    match ParseIP addr, parsePrefixLen nStr with
    | some ip, some n => some ⟨maskIP ip (cidrMask n), cidrMask n⟩
    | _, _ => none
  | _ => none

/-- `net.IPNet.Contains` on same-length addresses: every byte of the
address agrees with the network number under the mask. -/
def IPNet.Contains (n : IPNet) (ip : IP) : Bool :=
  decide (n.ip.length = ip.length) &&
    (List.range ip.length).all fun i =>
      (n.ip.getD i 0) &&& (n.mask.getD i 0) == (ip.getD i 0) &&& (n.mask.getD i 0)

/-- `net.IP.Equal` on two 4-byte addresses: byte-wise equality. -/
def ipEqual (a b : IP) : Bool := a == b

/-- The `ACL` struct of `pkg/acl/acl.go` after construction (the `sync`
lock guards concurrent mutation and has no sequential content). -/
structure ACL where
  enabled : Bool
  mode : GoStr
  whitelist : List IPNet
  blacklist : List IPNet
  whiteIPs : List IP
  blackIPs : List IP
deriving DecidableEq

/-- `ACL.isInWhitelist` (`pkg/acl/acl.go` lines 141-155). -/
def isInWhitelist (a : ACL) (ip : IP) : Bool :=
  a.whiteIPs.any (fun wip => ipEqual wip ip) || a.whitelist.any (fun n => n.Contains ip)

/-- `ACL.isInBlacklist` (`pkg/acl/acl.go` lines 157-171). -/
def isInBlacklist (a : ACL) (ip : IP) : Bool :=
  a.blackIPs.any (fun bip => ipEqual bip ip) || a.blacklist.any (fun n => n.Contains ip)

/-- `ACL.IsAllowed` (`pkg/acl/acl.go` lines 107-139): disabled policies
admit everyone; an unparseable peer address is denied; whitelist mode
requires membership, blacklist mode requires absence; any other mode
falls through to allow. -/
def IsAllowed (a : ACL) (addr : GoStr) : Bool :=
  if !a.enabled then true
  else
    match extractIP addr with
    | none => false
    | some ip =>
      if a.mode = "whitelist".data then isInWhitelist a ip
      else if a.mode = "blacklist".data then !isInBlacklist a ip
      else true

/-- `strings.TrimSpace`. -/
def trimSpace (s : GoStr) : GoStr :=
  ((s.dropWhile Char.isWhitespace).reverse.dropWhile Char.isWhitespace).reverse

/-- `ACL.addToWhitelist` (`pkg/acl/acl.go` lines 63-83). -/
def addToWhitelist (a : ACL) (item : GoStr) : Option ACL :=
  let item := trimSpace item
  if item = [] then some a
  else if item.contains '/' then
    match ParseCIDR item with
    | none => none
    | some ipNet => some { a with whitelist := a.whitelist ++ [ipNet] }
  else
    match ParseIP item with
    | none => none
    | some ip => some { a with whiteIPs := a.whiteIPs ++ [ip] }

/-- `ACL.addToBlacklist` (`pkg/acl/acl.go` lines 85-105). -/
def addToBlacklist (a : ACL) (item : GoStr) : Option ACL :=
  let item := trimSpace item
  if item = [] then some a
  else if item.contains '/' then
    match ParseCIDR item with
    | none => none
    | some ipNet => some { a with blacklist := a.blacklist ++ [ipNet] }
  else
    match ParseIP item with
    | none => none
    | some ip => some { a with blackIPs := a.blackIPs ++ [ip] }

/-- `acl.Config` from `pkg/acl/acl.go`. -/
structure Config where
  Enable : Bool
  Mode : GoStr
  Whitelist : List GoStr
  Blacklist : List GoStr

/-- `acl.New` (`pkg/acl/acl.go` lines 35-61): a disabled config skips list
construction entirely; otherwise every entry must parse. -/
def New (cfg : Config) : Option ACL :=
  let a0 : ACL := ⟨cfg.Enable, cfg.Mode, [], [], [], []⟩
  if !cfg.Enable then some a0
  else do
    let a1 ← cfg.Whitelist.foldlM addToWhitelist a0
    let a2 ← cfg.Blacklist.foldlM addToBlacklist a1
    some a2

/-- `acl.NewDisabled` (`pkg/acl/acl.go` lines 282-286): only `enabled` is
set; the mode is the zero-value string. -/
def NewDisabled : ACL := ⟨false, [], [], [], [], []⟩

/-- The ACL built from allow-list `["10.0.0.0/8"]` used in closed test
statements. -/
def wlAcl : ACL :=
  (New ⟨true, "whitelist".data, ["10.0.0.0/8".data], []⟩).getD NewDisabled

/-- C4: for every policy and every peer address from which an IP is
extracted — a disabled policy admits everyone; in whitelist mode the
address is admitted iff it equals an explicit entry or lies in a CIDR
range of the whitelist; in blacklist mode it is admitted iff it is neither
an explicit entry nor inside a CIDR range of the blacklist. -/
theorem isAllowed_decision (a : ACL) (addr : GoStr) (ip : IP)
    (h : extractIP addr = some ip) :
    (a.enabled = false → IsAllowed a addr = true) ∧
      (a.enabled = true → a.mode = "whitelist".data →
        (IsAllowed a addr = true ↔
          (∃ w ∈ a.whiteIPs, ipEqual w ip = true) ∨
            ∃ n ∈ a.whitelist, n.Contains ip = true)) ∧
      (a.enabled = true → a.mode = "blacklist".data →
        (IsAllowed a addr = true ↔
          ¬((∃ b ∈ a.blackIPs, ipEqual b ip = true) ∨
            ∃ n ∈ a.blacklist, n.Contains ip = true))) := by
  refine ⟨?_, ?_, ?_⟩
  · intro he
    simp [IsAllowed, he]
  · intro he hm
    simp [IsAllowed, he, hm, h, isInWhitelist, List.any_eq_true]
  · intro he hm
    have hne : ("blacklist".data : GoStr) ≠ "whitelist".data := by decide
    simp [IsAllowed, he, hm, h, hne, isInBlacklist, List.any_eq_true]

/-- Witness for C4: with allow-list `["10.0.0.0/8"]`, `10.1.2.3:5000` is
permitted and `11.1.1.1:5000` is denied. -/
theorem isAllowed_decision_witness :
    extractIP "10.1.2.3:5000".data = some [10, 1, 2, 3] ∧
      IsAllowed wlAcl "10.1.2.3:5000".data = true ∧
      IsAllowed wlAcl "11.1.1.1:5000".data = false := by
  refine ⟨by decide, ?_, ?_⟩
  · exact ((isAllowed_decision wlAcl "10.1.2.3:5000".data [10, 1, 2, 3]
        (by decide)).2.1 (by decide) (by decide)).mpr
      (Or.inr ⟨⟨[10, 0, 0, 0], [255, 0, 0, 0]⟩, by decide, by decide⟩)
  · have hiff := (isAllowed_decision wlAcl "11.1.1.1:5000".data [11, 1, 1, 1]
      (by decide)).2.1 (by decide) (by decide)
    cases hb : IsAllowed wlAcl "11.1.1.1:5000".data
    · rfl
    · exact absurd (hiff.mp hb) (by decide)

/-- Counterexample to C7 as stated over *every* policy: a disabled ACL
checks `enabled` before extracting the IP, so an address from which no IP
can be extracted is still allowed. -/
theorem isAllowed_unparseable_disabled_counterexample :
    extractIP "not-an-ip".data = none ∧
      IsAllowed NewDisabled "not-an-ip".data = true :=
  ⟨by decide, by decide⟩

/-- C7 amended to enabled policies: for every enabled ACL, an address from
which no IP can be extracted is denied (fail-closed). -/
theorem isAllowed_unparseable_denied (a : ACL) (addr : GoStr)
    (he : a.enabled = true) (h : extractIP addr = none) :
    IsAllowed a addr = false := by
  simp [IsAllowed, he, h]

/-- Witness for the amended C7 at a concrete enabled ACL and address. -/
theorem isAllowed_unparseable_denied_witness :
    wlAcl.enabled = true ∧ extractIP "not-an-ip".data = none ∧
      IsAllowed wlAcl "not-an-ip".data = false :=
  ⟨by decide, by decide,
    isAllowed_unparseable_denied wlAcl "not-an-ip".data (by decide) (by decide)⟩

/-- C10: an enabled ACL whose mode is neither `whitelist` nor `blacklist`
admits every address from which an IP can be extracted, whatever the
contents of the two lists. -/
theorem isAllowed_unknown_mode (a : ACL) (addr : GoStr) (ip : IP)
    (he : a.enabled = true) (hm1 : a.mode ≠ "whitelist".data)
    (hm2 : a.mode ≠ "blacklist".data) (h : extractIP addr = some ip) :
    IsAllowed a addr = true := by
  simp [IsAllowed, he, h, hm1, hm2]

/-- Witness for C10: mode `"banana"` admits an address even though the
blacklist explicitly contains its IP and the whitelist is empty. -/
theorem isAllowed_unknown_mode_witness :
    IsAllowed ⟨true, "banana".data, [], [⟨[10, 0, 0, 0], [255, 0, 0, 0]⟩], [], [[10, 1, 2, 3]]⟩
        "10.1.2.3".data = true :=
  isAllowed_unknown_mode
    ⟨true, "banana".data, [], [⟨[10, 0, 0, 0], [255, 0, 0, 0]⟩], [], [[10, 1, 2, 3]]⟩
    "10.1.2.3".data [10, 1, 2, 3] (by decide) (by decide) (by decide) (by decide)

end acl

namespace transport

/-- The HTTP response data `WSServer.serveFakePage` emits: status,
`Content-Type` header and body. -/
structure HTTPResponse where
  status : Nat
  contentType : acl.GoStr
  body : acl.GoStr

/-- What `WSServer.ServeHTTP` does with one inbound request: either emit
the camouflage page, or proceed to the WebSocket upgrade and the tunnel
handshake behind it. -/
inductive ServeAction where
  | fakePage (resp : HTTPResponse)
  | upgrade

/-- The static HTML literal from `WSServer.serveFakePage` (`pkg/transport`
WebSocket server, `serveFakePage`). -/
def fakeHTML : acl.GoStr :=
  ("<!DOCTYPE html>\n<html>\n<head>\n    <title>Welcome</title>\n    <style>\n        body \x7b font-family: Arial, sans-serif; text-align: center; padding: 50px; \x7d\n        h1 \x7b color: #333; \x7d\n    </style>\n</head>\n<body>\n    <h1>Welcome to our website</h1>\n    <p>This server is running normally.</p>\n</body>\n</html>").data

/-- `WSServer.serveFakePage`: HTTP 200, `text/html`, fixed body, for every
request reaching it. -/
def serveFakePage : HTTPResponse :=
  ⟨200, "text/html; charset=utf-8".data, fakeHTML⟩

/-- `WSServer.ServeHTTP` (`pkg/transport` WebSocket server): requests whose
URL path differs from the configured path get the camouflage page; only an
exact path match proceeds to the upgrade. -/
def ServeHTTP (cfgPath reqPath : acl.GoStr) : ServeAction :=
  if reqPath ≠ cfgPath then .fakePage serveFakePage
  else .upgrade

/-- C8: every request to a path other than the configured upgrade path is
answered with HTTP 200 and the fixed static page, and never reaches the
upgrade/handshake layer. -/
theorem serveHTTP_non_matching_path (cfgPath reqPath : acl.GoStr)
    (h : reqPath ≠ cfgPath) :
    ServeHTTP cfgPath reqPath = .fakePage ⟨200, "text/html; charset=utf-8".data, fakeHTML⟩ ∧
      ServeHTTP cfgPath reqPath ≠ .upgrade := by
  constructor
  · simp [ServeHTTP, serveFakePage, h]
  · simp [ServeHTTP, h]

/-- Witness for C8: a request for `/` against the default `/ws` upgrade
path receives the camouflage page. -/
theorem serveHTTP_non_matching_path_witness :
    ServeHTTP "/ws".data "/".data =
        .fakePage ⟨200, "text/html; charset=utf-8".data, fakeHTML⟩ ∧
      ServeHTTP "/ws".data "/".data ≠ .upgrade :=
  serveHTTP_non_matching_path "/ws".data "/".data (by decide)

end transport

namespace server

/-- Outcome of `net.DialTimeout("tcp", targetAddr, 10*time.Second)`. -/
inductive DialResult where
  | ok
  | fail (msg : acl.GoStr)

/-- What one run of the responder's connection handler did: the plaintext
payloads it passed to `WriteEncrypted`, in order, and whether it started
the bidirectional forwarding loops. -/
structure ResponderTrace where
  sent : List acl.GoStr
  bridged : Bool

/-- Target-address resolution in `Server.handleTCPConnection`: the
sentinel `USE_DEFAULT` is replaced by the configured target. -/
def resolveTarget (cfgTarget targetData : acl.GoStr) : acl.GoStr :=
  if targetData = "USE_DEFAULT".data then cfgTarget else targetData

/-- `Server.handleTCPConnection` (`pkg/server/server.go` lines 406-456) as
a function of its I/O outcomes: the decrypted handshake read (`none` for a
read error), the dial outcome at the resolved address, and whether the
`OK` write succeeds.  On a dial failure it writes `ERROR:` plus the dial
error text and returns without bridging. -/
def handleTCPConnection (cfgTarget : acl.GoStr) (dial : acl.GoStr → DialResult)
    (readResult : Option acl.GoStr) (okWriteSucceeds : Bool) : ResponderTrace :=
  match readResult with
  | none => ⟨[], false⟩
  | some targetData =>
    match dial (resolveTarget cfgTarget targetData) with
    | .fail e => ⟨["ERROR:".data ++ e], false⟩
    | .ok =>
      if okWriteSucceeds then ⟨["OK".data], true⟩ else ⟨["OK".data], false⟩

end server

namespace client

/-- `Client.handleTCPConnection` (`pkg/server/server.go` client part,
lines 1074-1124) from the handshake response onwards, as whether the
bidirectional forwarding loops start: a failed response read aborts, a
response without the `OK` prefix aborts, and otherwise forwarding starts
once the (possibly empty) buffered initial data is written. -/
def handleTCPConnection (response : Option acl.GoStr)
    (initialWriteSucceeds : Bool) : Bool :=
  match response with
  | none => false
  | some r =>
    if "OK".data.isPrefixOf r then initialWriteSucceeds
    else false

end client

namespace server

/-- C5: when the responder's dial of the resolved target fails, it sends
exactly one response — `ERROR:` followed by the dial error text — and
tears down without bridging; and an initiator that receives any response
not beginning with `OK` aborts without starting forwarding. -/
theorem dial_failure_no_bridge (cfgTarget targetData errMsg r : acl.GoStr)
    (dial : acl.GoStr → DialResult) (w iw : Bool)
    (hd : dial (resolveTarget cfgTarget targetData) = .fail errMsg)
    (hr : "OK".data.isPrefixOf r = false) :
    (handleTCPConnection cfgTarget dial (some targetData) w).sent =
        ["ERROR:".data ++ errMsg] ∧
      (handleTCPConnection cfgTarget dial (some targetData) w).bridged = false ∧
      client.handleTCPConnection (some r) iw = false := by
  refine ⟨?_, ?_, ?_⟩
  · simp [handleTCPConnection, hd]
  · simp [handleTCPConnection, hd]
  · simp [client.handleTCPConnection, hr]

/-- Witness for C5: sentinel request, a dial that refuses, and the
resulting `ERROR:`-prefixed response on the initiator side. -/
theorem dial_failure_no_bridge_witness :
    (handleTCPConnection "127.0.0.1:9999".data (fun _ => .fail "connection refused".data)
          (some "USE_DEFAULT".data) true).sent =
        ["ERROR:".data ++ "connection refused".data] ∧
      (handleTCPConnection "127.0.0.1:9999".data (fun _ => .fail "connection refused".data)
          (some "USE_DEFAULT".data) true).bridged = false ∧
      client.handleTCPConnection (some "ERROR:connection refused".data) true = false :=
  dial_failure_no_bridge "127.0.0.1:9999".data "USE_DEFAULT".data
    "connection refused".data "ERROR:connection refused".data
    (fun _ => .fail "connection refused".data) true true rfl (by decide)

/-- The request data `getClientIP` inspects: the two identity headers
(empty when absent, as Go's `Header.Get` reports) and the socket peer
address. -/
structure Request where
  xForwardedFor : acl.GoStr
  xRealIP : acl.GoStr
  remoteAddr : acl.GoStr

/-- `getClientIP` (`pkg/server/server.go` lines 497-514): first entry of
`X-Forwarded-For` (trimmed) when the header is non-empty, else `X-Real-IP`
when non-empty, else the host part of the connection's remote address. -/
def getClientIP (r : Request) : acl.GoStr :=
  if r.xForwardedFor ≠ [] then
    acl.trimSpace ((acl.splitOnChar ',' r.xForwardedFor).headD [])
  else if r.xRealIP ≠ [] then r.xRealIP
  else
    match acl.SplitHostPort r.remoteAddr with
    | some (host, _) => host
    | none => r.remoteAddr

/-- The ACL gate `Server.startWebSocket` wraps around the WebSocket
handler (`pkg/server/server.go` lines 309-316): the address submitted to
`IsAllowed` is `getClientIP(r)`. -/
def startWebSocketAllowed (a : acl.ACL) (r : Request) : Bool :=
  acl.IsAllowed a (getClientIP r)

/-- C9: the identity submitted to the access-control check in WebSocket
mode is taken from client-controlled headers whenever one is present — the
first comma-separated `X-Forwarded-For` entry, else `X-Real-IP` — and the
socket peer address is consulted only when both headers are empty, so the
admitted identity is independent of the socket peer address in the header
cases. -/
theorem getClientIP_header_priority (a : acl.ACL) (xff xri ra ra2 : acl.GoStr) :
    (xff ≠ [] →
      getClientIP ⟨xff, xri, ra⟩ = acl.trimSpace ((acl.splitOnChar ',' xff).headD []) ∧
        getClientIP ⟨xff, xri, ra2⟩ = getClientIP ⟨xff, xri, ra⟩) ∧
      (xff = [] → xri ≠ [] →
        getClientIP ⟨xff, xri, ra⟩ = xri ∧
          getClientIP ⟨xff, xri, ra2⟩ = getClientIP ⟨xff, xri, ra⟩) ∧
      (xff = [] → xri = [] →
        getClientIP ⟨xff, xri, ra⟩ =
          (match acl.SplitHostPort ra with
            | some (host, _) => host
            | none => ra)) ∧
      startWebSocketAllowed a ⟨xff, xri, ra⟩ =
        acl.IsAllowed a (getClientIP ⟨xff, xri, ra⟩) := by
  refine ⟨?_, ?_, ?_, rfl⟩
  · intro hx
    exact ⟨by simp [getClientIP, hx], by simp [getClientIP, hx]⟩
  · intro hx hr
    exact ⟨by simp [getClientIP, hx, hr], by simp [getClientIP, hx, hr]⟩
  · intro hx hr
    simp [getClientIP, hx, hr]

/-- Witness for C9: with `X-Forwarded-For: 1.2.3.4, 5.6.7.8` the admitted
identity is `1.2.3.4` regardless of the socket peer address. -/
theorem getClientIP_header_priority_witness :
    getClientIP ⟨"1.2.3.4, 5.6.7.8".data, [], "9.9.9.9:1234".data⟩ = "1.2.3.4".data :=
  (((getClientIP_header_priority acl.NewDisabled "1.2.3.4, 5.6.7.8".data []
      "9.9.9.9:1234".data "8.8.8.8:1".data).1 (by decide)).1).trans (by decide)

end server
